import Mathlib

set_option maxHeartbeats 1000000

/-!
Verification of the `unaware` masking engine (Go) against its design
specification, via a shallow embedding in Lean 4.

Conventions of the embedding:
* Go strings are modelled as Lean `String`; character-level operations model
  Go's byte-level operations, which coincide on the ASCII inputs relevant to
  every concrete theorem below.
* Machine integers are modelled as `Nat`/`Int` with explicit range conditions
  (for instance the `int64` bound in the model of `strconv.ParseInt`).
* External libraries (gofakeit, crypto/hmac+sha256, uuid, iban, phonenumbers,
  url/net parsers, dateparse, cases.Title) are out of the specified core: they
  are modelled as components of an explicit environment `Env`.  Theorems
  quantify over the environment, so they hold for every behaviour of those
  libraries; closed witnesses instantiate the environment with a concrete
  reference instance `refEnv` whose parser fields agree with the real
  libraries on the concrete inputs used.
* In-repository logic (the regular expressions compiled in `newMasker`, the
  Luhn check, the detector chain, caching, the concurrent runner, the format
  processors) is transcribed from the source.
-/

namespace Unaware

/-- Scalar values that reach `masker.mask`: Go `string`, `json.Number`,
`bool` and `nil` (part_023, `maskUncached` type switch). -/
inductive Value where
  | str (s : String)
  | num (s : String)
  | bool (b : Bool)
  | null
deriving DecidableEq, Repr

/-- State of the faker's pseudo-random generator: the seed installed by the
last `Rand.Seed` call plus the number of draws made since.  All randomness
is a pure function of this state through `Env.stream`. -/
structure Rng where
  seed : Int
  pos : Nat
deriving DecidableEq, Repr

/-- Classification result of Go `net.ParseIP` (nil / 4-byte / 16-byte). -/
inductive IpKind where
  | none
  | v4
  | v6
deriving DecidableEq, Repr

/-- The environment of external collaborators: the gofakeit generators, the
HMAC-SHA256 primitive, the title caser, and the external format parsers used
as detectors.  Each generator consumes the rng state and returns the produced
string together with the advanced state, which is exactly the observable
behaviour of the Go libraries (their outputs are pure functions of the
underlying `math/rand` state). -/
structure Env where
  hmacSha256 : List Nat → List Nat → List Nat
  stream : Int → Nat → Nat
  uuidGen : Rng → String × Rng
  ibanGen : Rng → String × Rng
  ccGen : Rng → String × Rng
  phoneGen : Rng → String × Rng
  priceGen : Rng → String × Rng
  ulidGen : Rng → String × Rng
  urlGen : Rng → String × Rng
  emailGen : Rng → String × Rng
  macGen : Rng → String × Rng
  ipv4Gen : Rng → String × Rng
  ipv6Gen : Rng → String × Rng
  dateGen : String → Rng → String × Rng
  wordGen : Rng → String × Rng
  titleCase : String → String
  uuidParseOk : String → Bool
  ibanValidateOk : String → Bool
  phoneParseOk : String → Bool
  urlParseOk : String → Bool
  macParseOk : String → Bool
  ipClass : String → IpKind
  timeParseOk : String → String → Bool
  dateAnyOk : String → Bool

/-! ### Seed derivation (part_023 lines 122-156) -/

/-- Byte view of a string; on the ASCII strings of all concrete theorems this
coincides with Go's UTF-8 byte slice. -/
def strBytes (s : String) : List Nat := s.data.map (fun c => c.toNat)

/-- Big-endian `uint64` of the first eight bytes, as in
`binary.BigEndian.Uint64(seedBytes)`. -/
def beUint64 (bytes : List Nat) : Nat :=
  ((bytes.take 8).foldl (fun a b => a * 256 + b % 256) 0)

/-- Reinterpret a `uint64` value as Go `int64` (two's complement). -/
def toInt64 (u : Nat) : Int :=
  if u < 2 ^ 63 then (u : Int) else (u : Int) - 2 ^ 64

/-- `deterministicSeeder.createSeed`: truncate the input to its 64-byte
prefix, HMAC-SHA256 it with the salt, and take the first eight bytes
big-endian as an `int64`. -/
def createSeed (hmac : List Nat → List Nat → List Nat) (salt : List Nat) (s : String) : Int :=
  let bytes := strBytes s
  let t := if 64 < bytes.length then bytes.take 64 else bytes
  toInt64 (beUint64 (hmac salt t))

/-- The string the seeder hashes, from the type switch in
`deterministicSeeder.SeedFaker` (`strconv.FormatBool` for booleans,
`v.String()` for `json.Number`, `"[UNSUPPORTED]"` otherwise). -/
def seedInputStr : Value → String
  | .str s => s
  | .num s => s
  | .bool b => if b then "true" else "false"
  | .null => "[UNSUPPORTED]"

/-- `masker.getCacheKey` (part_023 lines 257-268): same switch but the
default branch returns the empty string. -/
def getCacheKey : Value → String
  | .str s => s
  | .num s => s
  | .bool b => if b then "true" else "false"
  | .null => ""

/-- The two seeding strategies of the configuration (`MethodDeterministic`
carries the salt; `MethodRandom` never reseeds). -/
inductive SeederKind where
  | deterministic (salt : List Nat)
  | random
deriving DecidableEq, Repr

/-- `seeder.SeedFaker`: the deterministic seeder installs the derived seed,
the random seeder is a no-op. -/
def seedFaker (env : Env) (sk : SeederKind) (v : Value) (r : Rng) : Rng :=
  match sk with
  | .deterministic salt => ⟨createSeed env.hmacSha256 salt (seedInputStr v), 0⟩
  | .random => r

/-- `seeder.SeedFakerForWord`: per-word reseeding in the word fallback. -/
def seedFakerForWord (env : Env) (sk : SeederKind) (w : String) (r : Rng) : Rng :=
  match sk with
  | .deterministic salt => ⟨createSeed env.hmacSha256 salt w, 0⟩
  | .random => r

/-! ### Primitive draws from the faker's generator -/

/-- One draw from the faker's `math/rand` source. -/
def drawNat (env : Env) (r : Rng) : Nat × Rng :=
  (env.stream r.seed r.pos, ⟨r.seed, r.pos + 1⟩)

/-- `faker.Rand.Intn n`: a draw reduced below `n`. -/
def intn (env : Env) (n : Nat) (r : Rng) : Nat × Rng :=
  let d := drawNat env r
  (d.1 % n, d.2)

def digitChar (n : Nat) : Char := Char.ofNat (48 + n % 10)

/-- `faker.Numerify`: every `#` in the template is replaced by a random
digit, every other character is kept. -/
def numerifyL (env : Env) : List Char → Rng → List Char × Rng
  | [], r => ([], r)
  | c :: rest, r =>
    if c = '#' then
      let d := intn env 10 r
      let t := numerifyL env rest d.2
      (digitChar d.1 :: t.1, t.2)
    else
      let t := numerifyL env rest r
      (c :: t.1, t.2)

def numerify (env : Env) (template : String) (r : Rng) : String × Rng :=
  let t := numerifyL env template.data r
  (String.mk t.1, t.2)

/-- Character set of `masker.generateAlphanumericN`. -/
def alnumCharset : List Char :=
  "abcdefghijklmnopqrstuvwxyzABCDEFGHIJKLMNOPQRSTUVWXYZ0123456789".data

/-- `masker.generateAlphanumericN` (part_023 lines 269-277). -/
def genAlnum (env : Env) : Nat → Rng → List Char × Rng
  | 0, r => ([], r)
  | n + 1, r =>
    let d := intn env alnumCharset.length r
    let rest := genAlnum env n d.2
    (alnumCharset.getD d.1 'a' :: rest.1, rest.2)

/-! ### Character classes and concrete detector models -/

def isDigitC (c : Char) : Bool := 48 ≤ c.toNat && c.toNat ≤ 57

/-- Go regexp `\s` class: `[\t\n\f\r ]`. -/
def isReWsC (c : Char) : Bool :=
  c = ' ' || c = '\t' || c = '\n' || c = '\r' || c = '\x0c'

/-- `unicode.IsSpace` restricted to the code points that occur here
(`strings.TrimSpace` uses it). -/
def isGoSpaceC (c : Char) : Bool :=
  c = ' ' || c = '\t' || c = '\n' || c = '\r' || c = '\x0b' || c = '\x0c' ||
    c.toNat = 0x85 || c.toNat = 0xa0

/-- `strings.TrimSpace(s) == ""`. -/
def trimSpaceIsEmpty (s : String) : Bool := s.data.all isGoSpaceC

/-- Go `strings.Split` on a single-character separator. -/
def splitCh (sep : Char) : List Char → List (List Char)
  | [] => [[]]
  | c :: rest =>
    let acc := splitCh sep rest
    if c = sep then [] :: acc
    else (c :: acc.headD []) :: acc.tail

/-- `pre` is a leading segment of `l`. -/
def leadsWith : List Char → List Char → Bool
  | [], _ => true
  | _ :: _, [] => false
  | p :: ps, c :: cs => p = c && leadsWith ps cs

/-- Model of the compiled regex `^[^@\s]+@[^@\s]+\.[^@\s]+$` (emailRegex):
exactly one `@`, no regex whitespace, nonempty local part, and a dot in the
domain with at least one character on each side. -/
def emailMatch (s : String) : Bool :=
  match splitCh '@' s.data with
  | [a, b] =>
    !a.isEmpty && a.all (fun c => !isReWsC c) &&
      b.all (fun c => !isReWsC c) && ((b.drop 1).dropLast.contains '.')
  | _ => false

/-- Model of `^[\d\s-]+$` (numLikeRegex). -/
def numLikeMatch (s : String) : Bool :=
  !s.data.isEmpty && s.data.all (fun c => isDigitC c || isReWsC c || c = '-')

/-- Crockford base-32 class `[0-9a-hjkmnp-tv-z]`, case-insensitive. -/
def crockfordC (c : Char) : Bool :=
  let d := c.toLower
  isDigitC d || ('a' ≤ d && d ≤ 'h') || d = 'j' || d = 'k' || d = 'm' || d = 'n' ||
    ('p' ≤ d && d ≤ 't') || ('v' ≤ d && d ≤ 'z')

/-- Model of `(?i)^[0-7][0-9a-hjkmnp-tv-z]{25}$` (ulidRegex). -/
def ulidMatch (s : String) : Bool :=
  match s.data with
  | c :: rest => ('0' ≤ c && c ≤ '7') && rest.length = 25 && rest.all crockfordC
  | [] => false

/-- Model of `^[a-zA-Z0-9]{27}$` (ksuidRegex). -/
def ksuidMatch (s : String) : Bool :=
  s.data.length = 27 && s.data.all (fun c => c.isAlphanum)

def ccSepC (c : Char) : Bool := c = ' ' || c = '-'

/-- Model of `^(?:\d[ -]*?){13,16}$` (creditCardRegex): starts with a digit,
only digits / spaces / dashes, and 13 to 16 digits in total. -/
def ccShapeMatch (s : String) : Bool :=
  match s.data with
  | [] => false
  | c :: _ =>
    isDigitC c && s.data.all (fun d => isDigitC d || ccSepC d) &&
      (let n := (s.data.filter isDigitC).length
       13 ≤ n && n ≤ 16)

def natOfDigits (l : List Char) : Nat :=
  l.foldl (fun a c => a * 10 + (c.toNat - 48)) 0

/-- Digit doubling step of the Luhn checksum (`theplant/luhn`). -/
def luhnDouble (d : Nat) : Nat :=
  let x := d * 2
  if 9 < x then x % 10 + x / 10 else x

/-- `luhn.checksum(number)`: digits little-endian, doubling the even
positions. -/
def luhnChecksum (m : Nat) : Nat :=
  ((Nat.digits 10 m).enum.foldl
    (fun acc p => acc + (if p.1 % 2 = 0 then luhnDouble p.2 else p.2)) 0) % 10

/-- `luhn.Valid`. -/
def luhnValid (n : Nat) : Bool := (n % 10 + luhnChecksum (n / 10)) % 10 = 0

/-- The credit-card detector of `maskUncached`: regex shape, separators
stripped, `strconv.Atoi` (always in `int64` range here, at most 16 digits),
then the Luhn check. -/
def ccDetect (s : String) : Bool :=
  ccShapeMatch s && luhnValid (natOfDigits (s.data.filter isDigitC))

def sepDC (c : Char) : Bool := c = '.' || c = ','

/-- Tail of the currency amount after its 1-3 leading digits: groups
`[.,]\d{3}` followed by an optional final `[.,]\d{2}`, matching the
backtracking semantics of the anchored regex. -/
def currencyTail : Nat → List Char → Bool
  | 0, l => l.isEmpty
  | _ + 1, [] => true
  | fuel + 1, c :: rest =>
    if sepDC c then
      let ds := rest.takeWhile isDigitC
      if ds.length = 3 then currencyTail fuel (rest.drop 3)
      else if ds.length = 2 && (rest.drop 2).isEmpty then true
      else false
    else false

/-- Amount part `\d{1,3}(?:[.,]\d{3})*(?:[.,]\d{2})?$`. -/
def currencyAmount (l : List Char) : Bool :=
  let run := l.takeWhile isDigitC
  if run.length = 0 || 3 < run.length then false
  else currencyTail l.length (l.drop run.length)

def currencySyms : List String := ["$", "€", "£", "USD", "EUR", "GBP"]

/-- Model of the currencyRegex
`^(\$|€|£|USD|EUR|GBP)\s*(\d{1,3}(?:[.,]\d{3})*(?:[.,]\d{2})?)$`, returning
the captured symbol (`matches[1]`). -/
def currencySym (s : String) : Option String :=
  currencySyms.findSome? (fun sym =>
    if leadsWith sym.data s.data then
      let rest := (s.data.drop sym.data.length).dropWhile isReWsC
      if currencyAmount rest then some sym else none
    else none)

/-- Model of `strconv.ParseInt(s, 10, 64)` succeeding: optional sign, one or
more ASCII digits, magnitude within `int64`. -/
def parseIntOk (s : String) : Bool :=
  match s.data with
  | [] => false
  | c :: rest =>
    let neg := c = '-'
    let ds := if c = '-' || c = '+' then rest else c :: rest
    !ds.isEmpty && ds.all isDigitC &&
      (if neg then natOfDigits ds ≤ 2 ^ 63 else natOfDigits ds ≤ 2 ^ 63 - 1)

/-- Special values accepted by `strconv.ParseFloat`: `NaN` unsigned and
`Inf`/`Infinity` optionally signed, case-insensitive. -/
def specialFloat (l : List Char) : Bool :=
  let low := l.map Char.toLower
  low = "nan".data ||
    (let t := match low with
      | c :: rest => if c = '+' || c = '-' then rest else low
      | [] => low
     t = "inf".data || t = "infinity".data)

/-- Decimal number grammar of `strconv.ParseFloat(s, 64)`:
`[sign] digits [. digits] [e [sign] digits]` with at least one mantissa
digit.  (Hexadecimal floats and underscore separators are not modelled; no
claim depends on them.) -/
def decimalFloat (l : List Char) : Bool :=
  let l1 := match l with
    | c :: rest => if c = '+' || c = '-' then rest else l
    | [] => l
  let ip := l1.takeWhile isDigitC
  let r1 := l1.drop ip.length
  let hasDot := match r1 with
    | '.' :: _ => true
    | _ => false
  let r1b := if hasDot then r1.drop 1 else r1
  let fp := if hasDot then r1b.takeWhile isDigitC else []
  let r2 := if hasDot then r1b.drop fp.length else r1
  let mantissaOk := 0 < ip.length + fp.length
  let expOk := match r2 with
    | [] => true
    | e :: er =>
      (e = 'e' || e = 'E') &&
        (let er1 := match er with
          | c :: rest => if c = '+' || c = '-' then rest else er
          | [] => er
         !er1.isEmpty && er1.all isDigitC)
  mantissaOk && expOk

def parseFloatOk (s : String) : Bool :=
  specialFloat s.data || decimalFloat s.data

/-- The eight layouts of `masker.dateLayouts` (RFC3339, RFC3339Nano, the
RFC3339 literal again, and the remaining five). -/
def dateLayouts : List String :=
  ["2006-01-02T15:04:05Z07:00",
   "2006-01-02T15:04:05.999999999Z07:00",
   "2006-01-02T15:04:05Z07:00",
   "2006-01-02 15:04:05",
   "2006-01-02",
   "2006-01",
   "01/02/2006",
   "Mon, 02 Jan 2006 15:04:05 MST"]

/-! ### The masker (part_023 lines 178-393) -/

/-- First character is an ASCII upper-case letter (`word[0] >= 'A' && word[0] <= 'Z'`). -/
def startsUpper (w : String) : Bool :=
  match w.data with
  | c :: _ => 'A' ≤ c && c ≤ 'Z'
  | [] => false

/-- The word-fallback of `maskUncached`: split on single spaces, reseed per
word, generate a fake word, and mirror the original word's initial
capitalisation through the title caser. -/
def maskWordsGo (env : Env) (sk : SeederKind) : List String → Rng → List String × Rng
  | [], r => ([], r)
  | w :: ws, r =>
    let r1 := seedFakerForWord env sk w r
    let g := env.wordGen r1
    let masked := if startsUpper w then env.titleCase g.1 else g.1
    let rest := maskWordsGo env sk ws g.2
    (masked :: rest.1, rest.2)

/-- `strings.ReplaceAll(s, " ", "")` as used by the IBAN detector. -/
def removeSpaces (s : String) : String :=
  String.mk (s.data.filter (fun c => c ≠ ' '))

/-- RFC3339 layout constant (`time.RFC3339`). -/
def rfc3339Layout : String := "2006-01-02T15:04:05Z07:00"

/-- The digit-substitution loop of the numLikeRegex branch: digits are
replaced with `Intn 10`, every other character is kept. -/
def numLikeSub (env : Env) : List Char → Rng → List Char × Rng
  | [], r => ([], r)
  | c :: rest, r =>
    if '0' ≤ c && c ≤ '9' then
      let d := intn env 10 r
      let t := numLikeSub env rest d.2
      (digitChar d.1 :: t.1, t.2)
    else
      let t := numLikeSub env rest r
      (c :: t.1, t.2)

/-- The string arm of `maskUncached` after seeding (part_023 lines 282-380):
the detector chain in source order with first-match-wins semantics. -/
def maskUncachedStr (env : Env) (sk : SeederKind) (s : String) (r : Rng) : Value × Rng :=
  if trimSpaceIsEmpty s then (.str s, r)
  else if env.uuidParseOk s then
    let g := env.uuidGen r; (.str g.1, g.2)
  else if env.ibanValidateOk (removeSpaces s) then
    let g := env.ibanGen r; (.str g.1, g.2)
  else if ccDetect s then
    let g := env.ccGen r; (.str g.1, g.2)
  else if env.phoneParseOk s then
    let g := env.phoneGen r; (.str g.1, g.2)
  else if (currencySym s).isSome then
    let g := env.priceGen r; (.str ((currencySym s).getD "" ++ " " ++ g.1), g.2)
  else if ulidMatch s then
    let g := env.ulidGen r; (.str g.1, g.2)
  else if ksuidMatch s then
    let g := genAlnum env 27 r; (.str (String.mk g.1), g.2)
  else if env.urlParseOk s then
    let g := env.urlGen r; (.str g.1, g.2)
  else if emailMatch s then
    let g := env.emailGen r; (.str g.1, g.2)
  else if env.macParseOk s then
    let g := env.macGen r; (.str g.1, g.2)
  else if env.ipClass s = .v4 then
    let g := env.ipv4Gen r; (.str g.1, g.2)
  else if env.ipClass s = .v6 then
    let g := env.ipv6Gen r; (.str g.1, g.2)
  else if parseIntOk s then
    let g := numerifyL env (List.replicate s.data.length '#') r
    (.str (String.mk g.1), g.2)
  else if parseFloatOk s then
    let parts := splitCh '.' s.data
    let ip := parts.headD []
    let fp := if 1 < parts.length then parts.getD 1 [] else []
    let template :=
      List.replicate ip.length '#' ++
        (if !fp.isEmpty then '.' :: List.replicate fp.length '#' else [])
    let g := numerifyL env template r
    (.str (String.mk g.1), g.2)
  else if (dateLayouts.find? (fun layout => env.timeParseOk layout s)).isSome then
    let g := env.dateGen ((dateLayouts.find? (fun layout => env.timeParseOk layout s)).getD "") r
    (.str g.1, g.2)
  else if numLikeMatch s then
    let g := numLikeSub env s.data r
    (.str (String.mk g.1), g.2)
  else if env.dateAnyOk s then
    let g := env.dateGen rfc3339Layout r; (.str g.1, g.2)
  else
    let g := maskWordsGo env sk ((splitCh ' ' s.data).map String.mk) r
    (.str (String.intercalate " " g.1), g.2)

/-- The `json.Number` arm of `maskUncached` (part_023 lines 381-388). -/
def maskNum (env : Env) (s : String) (r : Rng) : Value × Rng :=
  if s.data.contains '.' then
    let parts := splitCh '.' s.data
    let template :=
      List.replicate (parts.headD []).length '#' ++ '.' ::
        List.replicate (parts.getD 1 []).length '#'
    let g := numerifyL env template r
    (.num (String.mk g.1), g.2)
  else
    let g := numerifyL env (List.replicate s.data.length '#') r
    (.num (String.mk g.1), g.2)

/-- `masker.maskUncached`: seed the faker from the value, then dispatch on
the runtime type (strings through the detector chain, numbers
shape-preserving, booleans as a seeded coin flip, anything else the
fail-loud sentinel). -/
def maskUncached (env : Env) (sk : SeederKind) (r0 : Rng) (v : Value) : Value × Rng :=
  let r := seedFaker env sk v r0
  match v with
  | .str s => maskUncachedStr env sk s r
  | .num s => maskNum env s r
  | .bool _ => let d := drawNat env r; (.bool (d.1 % 2 = 1), d.2)
  | .null => (.str "[MASKED UNSUPPORTED TYPE]", r)

/-- Association-list lookup modelling the ristretto cache `Get`. -/
def lookupA (m : List (String × Value)) (k : String) : Option Value :=
  match m.find? (fun p => p.1 == k) with
  | some p => some p.2
  | none => none

/-- Association-list store modelling the cache `Set` (at most one entry per
key).  The real cache admits entries asynchronously and may drop them; the
theorems below quantify over cache contents satisfying an invariant, which
covers every admit/drop behaviour. -/
def setA (m : List (String × Value)) (k : String) (v : Value) : List (String × Value) :=
  match m with
  | [] => [(k, v)]
  | p :: rest => if p.1 == k then (k, v) :: rest else p :: setA rest k v

/-- Mutable state of one `masker` instance: the rng state and the
deterministic cache contents. -/
structure MState where
  rng : Rng
  cache : List (String × Value)
deriving DecidableEq, Repr

/-- `masker.mask` (part_023 lines 234-255): nil passes through; with the
deterministic method the cache is consulted first (key `getCacheKey`) and
written after computing `maskUncached`; the random method has no cache. -/
def mask (env : Env) (sk : SeederKind) (st : MState) (v : Value) : Value × MState :=
  match v with
  | .null => (.null, st)
  | _ =>
    match sk with
    | .deterministic _ =>
      let key := getCacheKey v
      match lookupA st.cache key with
      | some w => (w, st)
      | none =>
        let g := maskUncached env sk st.rng v
        (g.1, ⟨g.2, setA st.cache key g.1⟩)
    | .random =>
      let g := maskUncached env sk st.rng v
      (g.1, ⟨g.2, st.cache⟩)

/-- The value `maskUncached` produces for a value under the deterministic
strategy; independent of the incoming rng state because `SeedFaker`
overwrites it (proved below). -/
def maskPure (env : Env) (salt : List Nat) (v : Value) : Value :=
  (maskUncached env (.deterministic salt) ⟨0, 0⟩ v).1

/-! ### Field filter (part_023 lines 98-115) -/

/-- The `for ... if g.Match(key)` loops of `shouldMask`. -/
def anyMatch (key : String) : List (String → Bool) → Bool
  | [] => false
  | g :: gs => if g key then true else anyMatch key gs

/-- `shouldMask` transcribed: the exclude block (entered only when the list
is non-empty) returns false on a match; the include block returns whether
some include pattern matches; otherwise true.  Glob patterns are the opaque
match oracles `String → Bool`. -/
def shouldMask (key : String) (includeGlobs excludeGlobs : List (String → Bool)) : Bool :=
  if 0 < excludeGlobs.length && anyMatch key excludeGlobs then false
  else if 0 < includeGlobs.length then anyMatch key includeGlobs
  else true

/-! ### Decoded document trees (`any` values produced by the decoders) -/

/-- A decoded chunk tree: scalars, arrays and objects.  Objects are
association lists; Go map iteration order is unspecified, the embedding
fixes field order (per-value reseeding makes deterministic outputs
independent of this order). -/
inductive JValue where
  | str (s : String)
  | num (s : String)
  | jbool (b : Bool)
  | null
  | arr (xs : List JValue)
  | obj (fs : List (String × JValue))

def toScalarV : JValue → Option Value
  | .str s => some (.str s)
  | .num s => some (.num s)
  | .jbool b => some (.bool b)
  | .null => some .null
  | .arr _ => none
  | .obj _ => none

def ofValue : Value → JValue
  | .str s => .str s
  | .num s => .num s
  | .bool b => .jbool b
  | .null => .null

/-- `m.mask` applied to a decoded tree node.  Containers never reach `mask`
from decoded documents (the recursion handles them first); the container
case mirrors the Go type switch falling through to the sentinel. -/
def maskJ (env : Env) (sk : SeederKind) (st : MState) (j : JValue) : JValue × MState :=
  match toScalarV j with
  | some v =>
    let g := mask env sk st v
    (ofValue g.1, g.2)
  | none => (.str "[MASKED UNSUPPORTED TYPE]", st)

/-- `strings.TrimPrefix(k, "-")` for the single-character marker the XML
decoder puts on attribute keys. -/
def trimDash (k : String) : String :=
  match k.data with
  | '-' :: rest => String.mk rest
  | _ => k

mutual

/-- `concurrentRunner.recursiveMask` (src/pkg/worker.go lines 104-146):
scalars are masked when the field filter permits; objects extend the dotted
key per field (attributes `-x` contribute `x`, `#text` keeps the parent
key and masks directly); arrays do not extend the key. -/
def recursiveMask (env : Env) (sk : SeederKind) (inc exc : List (String → Bool))
    (st : MState) (key : String) : JValue → JValue × MState
  | .str s => if shouldMask key inc exc then maskJ env sk st (.str s) else (.str s, st)
  | .num s => if shouldMask key inc exc then maskJ env sk st (.num s) else (.num s, st)
  | .jbool b => if shouldMask key inc exc then maskJ env sk st (.jbool b) else (.jbool b, st)
  | .null => if shouldMask key inc exc then maskJ env sk st .null else (.null, st)
  | .arr xs =>
    let g := recMaskArr env sk inc exc st key xs
    (.arr g.1, g.2)
  | .obj fs =>
    let g := recMaskObj env sk inc exc st key fs
    (.obj g.1, g.2)

/-- Array loop of `recursiveMask`: same key for every element. -/
def recMaskArr (env : Env) (sk : SeederKind) (inc exc : List (String → Bool))
    (st : MState) (key : String) : List JValue → List JValue × MState
  | [] => ([], st)
  | x :: xs =>
    let g := recursiveMask env sk inc exc st key x
    let rest := recMaskArr env sk inc exc g.2 key xs
    (g.1 :: rest.1, rest.2)

/-- Object loop of `recursiveMask`. -/
def recMaskObj (env : Env) (sk : SeederKind) (inc exc : List (String → Bool))
    (st : MState) (key : String) : List (String × JValue) → List (String × JValue) × MState
  | [] => ([], st)
  | (k, v) :: fs =>
    let cur :=
      if k == "#text" then
        if shouldMask key inc exc then maskJ env sk st v else (v, st)
      else
        let nested := trimDash k
        let fullKey := if key == "" then nested else key ++ "." ++ nested
        recursiveMask env sk inc exc st fullKey v
    let rest := recMaskObj env sk inc exc cur.2 key fs
    ((k, cur.1) :: rest.1, rest.2)

end

/-- Worker-local masker construction (`newMasker`): the deterministic
method starts from `gofakeit.NewUnlocked(1)` with an empty cache; the random
method's initial seed is irrelevant to every theorem below and is fixed to 1
as well. -/
def initMState : MState := ⟨⟨1, 0⟩, []⟩

/-- The function a worker applies to one chunk: a fresh masker instance
walking the tree from the root key.  (Workers reuse their masker across
chunks; under the deterministic strategy this does not change outputs,
which is the subject of C1.) -/
def maskChunk (env : Env) (sk : SeederKind) (inc exc : List (String → Bool))
    (root : String) (c : JValue) : JValue :=
  (recursiveMask env sk inc exc initMState root c).1

/-! ### The concurrent runner (src/pkg/worker.go lines 42-102) -/

/-- Job indexing by the dispatcher: monotonically increasing dispatch
order. -/
def indexed : List α → Nat → List (Nat × α)
  | [], _ => []
  | x :: xs, k => (k, x) :: indexed xs (k + 1)

/-- Remove the first buffered result with the given index
(`resultsBuffer[nextIndexToWrite]` lookup plus `delete`). -/
def extract (i : Nat) : List (Nat × α) → Option (α × List (Nat × α))
  | [] => none
  | p :: rest =>
    if p.1 = i then some (p.2, rest)
    else
      match extract i rest with
      | none => none
      | some (y, r) => some (y, p :: r)

/-- The inner flush loop of the collector: repeatedly emit the buffered
result for `nextIndexToWrite` and advance.  Structural fuel (the buffer
length bounds the number of flushes). -/
def flushF : Nat → List (Nat × α) → Nat → List α × List (Nat × α) × Nat
  | 0, buf, next => ([], buf, next)
  | fuel + 1, buf, next =>
    match extract next buf with
    | none => ([], buf, next)
    | some (y, buf2) =>
      let t := flushF fuel buf2 (next + 1)
      (y :: t.1, t.2.1, t.2.2)

/-- Collector state: out-of-order buffer, next index to write, and the
items written so far. -/
structure CState (α : Type u) where
  buf : List (Nat × α)
  next : Nat
  out : List α
deriving DecidableEq, Repr

/-- One iteration of the collector's `for res := range results` loop:
buffer the arrival, then flush every consecutive ready index. -/
def cstep (st : CState α) (p : Nat × α) : CState α :=
  let buf1 := p :: st.buf
  let t := flushF buf1.length buf1 st.next
  ⟨t.2.1, t.2.2, st.out ++ t.1⟩

/-- The collector applied to the whole arrival sequence (the order in which
indexed results come off the results channel). -/
def collectLoop (arrival : List (Nat × α)) : CState α :=
  arrival.foldl cstep ⟨[], 0, []⟩

/-- Observable outcome of `concurrentRunner.Run`: the items handed to the
assembler in write order, whether `WriteEnd` ran (it is skipped when a
dispatch error is pending), and the returned error. -/
structure RunOut (α : Type u) where
  items : List α
  wroteEnd : Bool
  err : Option String

/-- `concurrentRunner.Run` as a function of the arrival order of worker
results.  `arrival` stands for the sequence received on the results channel;
the worker pool guarantees it is a permutation of the indexed masked chunks,
which the theorems take as a hypothesis.  `term` is the non-EOF error the
chunk reader ended with, if any (`dispatchErr`). -/
def runnerRun (arrival : List (Nat × α)) (term : Option String) : RunOut α :=
  let st := collectLoop arrival
  { items := st.out, wroteEnd := term.isNone, err := term }

/-! ### JSON processor (src/pkg/json.go) -/

mutual

/-- Compact JSON rendering of a tree (the encoder's two-space indentation is
not modelled; string escaping is not needed for the inputs considered). -/
def encJson : JValue → String
  | .str s => "\"" ++ s ++ "\""
  | .num s => s
  | .jbool b => if b then "true" else "false"
  | .null => "null"
  | .arr xs => "[" ++ encJsonList xs ++ "]"
  | .obj fs => "\x7b" ++ encJsonFields fs ++ "\x7d"

/-- Comma-separated rendering of array elements. -/
def encJsonList : List JValue → String
  | [] => ""
  | [x] => encJson x
  | x :: xs => encJson x ++ "," ++ encJsonList xs

/-- Comma-separated rendering of object fields. -/
def encJsonFields : List (String × JValue) → String
  | [] => ""
  | [(k, v)] => "\"" ++ k ++ "\":" ++ encJson v
  | (k, v) :: fs => "\"" ++ k ++ "\":" ++ encJson v ++ "," ++ encJsonFields fs

end

/-- The byte sequence produced by the `jsonAssembler` item loop: a comma
before every item except the first, then `encoder.Encode` output (the
encoded item plus a newline). -/
def jsonItemsRender (items : List JValue) : String :=
  String.intercalate "," (items.map (fun x => encJson x ++ "\n"))

/-- Full writer content of a root-array run: `WriteStart` emits `[`,
`WriteEnd` emits `]` and a newline only when it runs. -/
def jsonArrayOut (items : List JValue) (wroteEnd : Bool) : String :=
  "[" ++ jsonItemsRender items ++ (if wroteEnd then "]\n" else "")

/-- The chunks the root-array chunk reader dispatches: all elements, or the
first `firstN` when the cap is positive (`-first` subsetting); reaching the
cap reports `io.EOF`. -/
def jsonChunks (firstN : Nat) (elems : List JValue) : List JValue :=
  if 0 < firstN then elems.take firstN else elems

/-- Result of a `Process` call: writer content plus returned error. -/
structure ProcOut where
  text : String
  err : Option String
deriving DecidableEq, Repr

/-- `jsonProcessor.processRootArray` for a well-formed array document: run
the collector over the arrival order of worker results and assemble with
the root-array assembler.  The arrival sequence for a document with
elements `elems` and cap `firstN` is a permutation of
`indexed ((jsonChunks firstN elems).map f) 0` where `f` is the worker's
recursive mask; theorems state this as a hypothesis. -/
def jsonProcessArray (arrival : List (Nat × JValue)) : ProcOut :=
  let run := runnerRun arrival none
  { text := jsonArrayOut run.items run.wroteEnd, err := run.err }

/-- `jsonProcessor.Process` routed on the first non-whitespace byte: `[`
takes the concurrent array path; anything else is decoded into
`map[string]any`, so only object documents (and `null`, which decodes to a
nil map and is re-encoded as an empty object) succeed, and scalar roots
fail with a decode error. -/
def jsonProcessRoot (env : Env) (sk : SeederKind) (inc exc : List (String → Bool))
    (doc : JValue) (arrival : List (Nat × JValue)) : ProcOut :=
  match doc with
  | .arr _ => jsonProcessArray arrival
  | .obj fs =>
    let g := recursiveMask env sk inc exc initMState "" (.obj fs)
    { text := encJson g.1 ++ "\n", err := none }
  | .null => { text := "\x7b\x7d\n", err := none }
  | _ => { text := "", err := some "error decoding root JSON object" }

/-! ### CSV processor (src/pkg/csv.go) -/

def lookupAJ (m : List (String × JValue)) (k : String) : Option JValue :=
  match m.find? (fun p => p.1 == k) with
  | some p => some p.2
  | none => none

def setAJ (m : List (String × JValue)) (k : String) (v : JValue) : List (String × JValue) :=
  match m with
  | [] => [(k, v)]
  | p :: rest => if p.1 == k then (k, v) :: rest else p :: setAJ rest k v

/-- `fmt.Sprintf("%v", val)` on the values a masked CSV row can hold. -/
def fmtV : JValue → String
  | .str s => s
  | .num s => s
  | .jbool b => if b then "true" else "false"
  | .null => "<nil>"
  | .arr _ => "[unsupported]"
  | .obj _ => "map[unsupported]"

/-- The chunk reader's row conversion (csv.go lines 48-53): record fields
are keyed by the header column at the same position; fields beyond the
header length are skipped. -/
def csvRowToMap (header record : List String) : List (String × JValue) :=
  (indexed record 0).foldl
    (fun m p =>
      match header.get? p.1 with
      | some k => setAJ m k (.str p.2)
      | none => m)
    []

/-- `csvAssembler.WriteItem` row reconstruction (csv.go lines 86-92): a
slice of `len(header)` empty strings, position `i` set to the formatted map
value of header column `i` when present. -/
def csvAssembleRecord (header : List String) (m : List (String × JValue)) : List String :=
  (indexed header 0).foldl
    (fun rec p =>
      match lookupAJ m p.2 with
      | some v => rec.set p.1 (fmtV v)
      | none => rec)
    (List.replicate header.length "")

/-! ### Text processor (src/unnamed/part_019, AppConfig version) -/

/-- The deterministic masked form of one text line (each worker's masker
applied to the line; per-value seeding makes this independent of the worker
and of previously processed lines, all of which are strings). -/
def maskStrPure (env : Env) (salt : List Nat) (s : String) : String :=
  match maskPure env salt (.str s) with
  | .str t => t
  | _ => ""

/-- `textProcessor.Process` with at least two workers: lines are scanned in
order and fanned out, but results carry no index and the writer emits them
in completion order `sched` (any permutation of the line indices is a
realizable completion order). -/
def textOutput (env : Env) (salt : List Nat) (lines : List String)
    (sched : List Nat) : List String :=
  sched.filterMap (fun i => (lines.get? i).map (fun line => maskStrPure env salt line))

/-! ### A concrete reference environment

`refEnv` instantiates `Env` for the closed witnesses and counterexamples.
Its parser fields are reference models of the external libraries
(google/uuid, jacoelho/banking, nyaruka/phonenumbers, net/url, net,
time.Parse, araddon/dateparse): they agree with the real libraries on every
concrete input used in a closed theorem below (short non-UUID strings,
digit/dot strings, single lowercase words), which is all a closed theorem
consumes.  Its generator fields are simple pure functions of the rng state,
which is the only property of gofakeit's generators any theorem uses. -/

def isHexC (c : Char) : Bool :=
  isDigitC c || ('a' ≤ c.toLower && c.toLower ≤ 'f')

/-- Canonical 8-4-4-4-12 UUID shape (hyphens at 8, 13, 18, 23, hex
elsewhere). -/
def uuidStd (l : List Char) : Bool :=
  l.length = 36 &&
    l.enum.all (fun p =>
      if p.1 = 8 || p.1 = 13 || p.1 = 18 || p.1 = 23 then p.2 = '-' else isHexC p.2)

/-- Reference model of `uuid.Parse` succeeding: the four accepted lengths of
google/uuid (canonical, urn-prefixed, braced, bare hex). -/
def refUuidParse (s : String) : Bool :=
  let l := s.data
  if l.length = 36 then uuidStd l
  else if l.length = 45 then
    (l.take 9).map Char.toLower = "urn:uuid:".data && uuidStd (l.drop 9)
  else if l.length = 38 then l.headD ' ' = '\x7b' && l.getLastD ' ' = '\x7d' && uuidStd ((l.drop 1).dropLast)
  else if l.length = 32 then l.all isHexC
  else false

/-- Reference model of `iban.Validate` succeeding: two upper-case letters,
two check digits, alphanumeric body, plausible length, ISO 7064 mod-97
checksum (the real library additionally checks a per-country registry). -/
def refIbanValidate (s : String) : Bool :=
  let l := s.data
  15 ≤ l.length && l.length ≤ 34 &&
    (match l with
     | a :: b :: c :: d :: _ =>
       ('A' ≤ a && a ≤ 'Z') && ('A' ≤ b && b ≤ 'Z') && isDigitC c && isDigitC d
     | _ => false) &&
    l.all (fun ch => isDigitC ch || ('A' ≤ ch && ch ≤ 'Z')) &&
    ((l.drop 4 ++ l.take 4).foldl
      (fun acc ch => if isDigitC ch then acc * 10 + (ch.toNat - 48) else acc * 100 + (ch.toNat - 55))
      0) % 97 = 1

/-- Reference model of `phonenumbers.Parse(s, "")` succeeding: with no
default region the number must carry a leading `+` and a viable quantity of
digits. -/
def refPhoneParse (s : String) : Bool :=
  let n := (s.data.filter isDigitC).length
  leadsWith "+".data s.data && 2 ≤ n && n ≤ 16

def isCtlC (c : Char) : Bool := c.toNat < 32 || c.toNat = 127

def schemeRestC (c : Char) : Bool := c.isAlphanum || c = '+' || c = '-' || c = '.'

/-- `getScheme` of net/url: a leading letter, scheme characters, then a
colon. -/
def hasScheme (l : List Char) : Bool :=
  match l with
  | c :: rest =>
    c.isAlpha &&
      (match rest.drop (rest.takeWhile schemeRestC).length with
       | ':' :: _ => true
       | _ => false)
  | [] => false

/-- Reference model of `url.ParseRequestURI` succeeding: no control bytes
and either `*`, a rooted path, or an absolute URI with a scheme. -/
def refUrlParse (s : String) : Bool :=
  !s.data.any isCtlC &&
    (s.data = ['*'] || leadsWith "/".data s.data || hasScheme s.data)

def hexPair (g : List Char) : Bool := g.length = 2 && g.all isHexC

/-- Reference model of `net.ParseMAC` succeeding: 6/8/20 colon- or
dash-separated hex octets, or 3/4/10 dot-separated 16-bit hex groups. -/
def refMacParse (s : String) : Bool :=
  let l := s.data
  let co := splitCh ':' l
  let da := splitCh '-' l
  let dt := splitCh '.' l
  ((co.length = 6 || co.length = 8 || co.length = 20) && co.all hexPair) ||
    ((da.length = 6 || da.length = 8 || da.length = 20) && da.all hexPair) ||
    ((dt.length = 3 || dt.length = 4 || dt.length = 10) &&
      dt.all (fun g => g.length = 4 && g.all isHexC))

def ipv4Octet (g : List Char) : Bool :=
  !g.isEmpty && g.length ≤ 3 && g.all isDigitC && natOfDigits g ≤ 255 &&
    (g.headD '0' ≠ '0' || g.length = 1)

/-- Reference model of `net.ParseIP`: dotted-quad for IPv4, a loose
hex-and-colon shape for IPv6. -/
def refIpClass (s : String) : IpKind :=
  let l := s.data
  let os := splitCh '.' l
  if os.length = 4 && os.all ipv4Octet then .v4
  else if l.any (fun c => c = ':') && 2 ≤ (l.filter (fun c => c = ':')).length &&
      l.all (fun c => isHexC c || c = ':' || c = '.') then .v6
  else .none

/-- Positional shape check: `d` in the shape requires a digit, anything
else is literal. -/
def dShape (l : List Char) (shape : List Char) : Bool :=
  l.length = shape.length &&
    (l.zip shape).all (fun p => if p.2 = 'd' then isDigitC p.1 else p.1 = p.2)

def monthOk (l : List Char) : Bool :=
  1 ≤ natOfDigits l && natOfDigits l ≤ 12

def dayOk (l : List Char) : Bool :=
  1 ≤ natOfDigits l && natOfDigits l ≤ 31

/-- Time-of-day `hh:mm:ss` shape with ranges. -/
def clockOk (l : List Char) : Bool :=
  dShape l "dd:dd:dd".data && natOfDigits (l.take 2) ≤ 23 &&
    natOfDigits ((l.drop 3).take 2) ≤ 59 && natOfDigits ((l.drop 6).take 2) ≤ 59

/-- `2006-01-02` shape. -/
def dateOnlyOk (l : List Char) : Bool :=
  dShape l "dddd-dd-dd".data && monthOk ((l.drop 5).take 2) && dayOk ((l.drop 8).take 2)

/-- RFC3339 numeric zone `Z` or `±hh:mm`. -/
def zoneOk (l : List Char) : Bool :=
  l = ['Z'] ||
    (l.length = 6 && (l.headD ' ' = '+' || l.headD ' ' = '-') &&
      dShape (l.drop 1) "dd:dd".data)

def dayNames : List String := ["Mon", "Tue", "Wed", "Thu", "Fri", "Sat", "Sun"]

def monNames : List String :=
  ["Jan", "Feb", "Mar", "Apr", "May", "Jun", "Jul", "Aug", "Sep", "Oct", "Nov", "Dec"]

/-- Reference model of `time.Parse(layout, s)` succeeding for the eight
layouts in `dateLayouts`. -/
def refTimeParse (layout : String) (s : String) : Bool :=
  let l := s.data
  if layout = "2006-01-02" then dateOnlyOk l
  else if layout = "2006-01" then
    dShape l "dddd-dd".data && monthOk ((l.drop 5).take 2)
  else if layout = "01/02/2006" then
    dShape l "dd/dd/dddd".data && monthOk (l.take 2) && dayOk ((l.drop 3).take 2)
  else if layout = "2006-01-02 15:04:05" then
    dateOnlyOk (l.take 10) && l.getD 10 ' ' = ' ' && clockOk (l.drop 11) && l.length = 19
  else if layout = "2006-01-02T15:04:05Z07:00" then
    20 ≤ l.length && dateOnlyOk (l.take 10) && l.getD 10 ' ' = 'T' &&
      clockOk ((l.drop 11).take 8) && zoneOk (l.drop 19)
  else if layout = "2006-01-02T15:04:05.999999999Z07:00" then
    20 ≤ l.length && dateOnlyOk (l.take 10) && l.getD 10 ' ' = 'T' &&
      clockOk ((l.drop 11).take 8) &&
      (zoneOk (l.drop 19) ||
        (l.getD 19 ' ' = '.' &&
          (let fr := (l.drop 20).takeWhile isDigitC
           1 ≤ fr.length && fr.length ≤ 9 && zoneOk ((l.drop 20).drop fr.length))))
  else if layout = "Mon, 02 Jan 2006 15:04:05 MST" then
    dayNames.any (fun d => (l.take 3) = d.data) && (l.drop 3).take 2 = ", ".data &&
      dShape ((l.drop 5).take 2) "dd".data && l.getD 7 ' ' = ' ' &&
      monNames.any (fun m => ((l.drop 8).take 3) = m.data) && l.getD 11 ' ' = ' ' &&
      dShape ((l.drop 12).take 4) "dddd".data && l.getD 16 ' ' = ' ' &&
      clockOk ((l.drop 17).take 8) && l.getD 25 ' ' = ' ' &&
      (let z := l.drop 26
       3 ≤ z.length && z.length ≤ 4 && z.all (fun c => 'A' ≤ c && c ≤ 'Z'))
  else false

/-- Reference model of `dateparse.ParseAny` succeeding: some digits
together with a date/time separator.  (Agrees with the library on every
concrete input evaluated below.) -/
def refDateAny (s : String) : Bool :=
  s.data.any isDigitC &&
    s.data.any (fun c => c = '-' || c = '/' || c = ':')

/-- Reference HMAC: a pure byte-level mixing function standing in for
HMAC-SHA256 (the theorems hold for every such function; the counterexamples
only need injectivity on the few short inputs they use, which this function
has). -/
def refHmac (key msg : List Nat) : List Nat :=
  (msg ++ key ++ [0, 0, 0, 0, 0, 0, 0, 0]).take 32

/-- One advanced rng state. -/
def bump (r : Rng) : Rng := ⟨r.seed, r.pos + 1⟩

/-- A tagged pure generator used for every fake-value field of `refEnv`. -/
def refGen (tag : String) (r : Rng) : String × Rng :=
  (tag ++ Nat.repr (r.seed.natAbs + r.pos), bump r)

def refTitle (s : String) : String :=
  match s.data with
  | c :: rest => String.mk (c.toUpper :: rest)
  | [] => ""

def refEnv : Env where
  hmacSha256 := refHmac
  stream := fun seed n => seed.natAbs + n
  uuidGen := refGen "uuid"
  ibanGen := refGen "iban"
  ccGen := refGen "cc"
  phoneGen := refGen "phone"
  priceGen := refGen "price"
  ulidGen := refGen "ulid"
  urlGen := refGen "url"
  emailGen := refGen "email"
  macGen := refGen "mac"
  ipv4Gen := refGen "ipv4"
  ipv6Gen := refGen "ipv6"
  dateGen := fun layout r => ("date:" ++ layout ++ Nat.repr (r.seed.natAbs + r.pos), bump r)
  wordGen := fun r => ("w" ++ Nat.repr ((r.seed.natAbs + r.pos) % 1009), bump r)
  titleCase := refTitle
  uuidParseOk := refUuidParse
  ibanValidateOk := refIbanValidate
  phoneParseOk := refPhoneParse
  urlParseOk := refUrlParse
  macParseOk := refMacParse
  ipClass := refIpClass
  timeParseOk := refTimeParse
  dateAnyOk := refDateAny

/-! ### Collector correctness infrastructure -/

theorem extract_some_perm {l : List (Nat × α)} {i : Nat} {y : α} {r : List (Nat × α)}
    (h : extract i l = some (y, r)) : l.Perm ((i, y) :: r) := by
  induction l generalizing y r with
  | nil => simp [extract] at h
  | cons p rest ih =>
    by_cases hp : p.1 = i
    · simp [extract, hp] at h
      obtain ⟨hy, hr⟩ := h
      subst hy; subst hr
      have hpp : p = (i, p.2) := by
        cases p; simp_all
      rw [hpp]
    · simp only [extract, hp, if_false] at h
      cases he : extract i rest with
      | none => rw [he] at h; simp at h
      | some q =>
        obtain ⟨y', r'⟩ := q
        rw [he] at h
        simp at h
        obtain ⟨hy, hr⟩ := h
        subst hy; subst hr
        exact ((ih he).cons p).trans (List.Perm.swap _ _ _)

theorem extract_none_not_mem {l : List (Nat × α)} {i : Nat}
    (h : extract i l = none) : ∀ y, (i, y) ∉ l := by
  induction l with
  | nil => simp
  | cons p rest ih =>
    by_cases hp : p.1 = i
    · simp [extract, hp] at h
    · simp only [extract, hp, if_false] at h
      cases he : extract i rest with
      | none =>
        intro y hy
        rcases List.mem_cons.mp hy with h1 | h1
        · exact hp (by rw [← h1])
        · exact ih he y h1
      | some q => rw [he] at h; simp at h

theorem not_mem_of_extract_fst {l : List (Nat × α)} {i : Nat} {y : α}
    (h : (i, y) ∈ l) : extract i l ≠ none := by
  intro hn
  exact extract_none_not_mem hn y h

theorem indexed_get? {l : List α} :
    ∀ {k j : Nat}, (indexed l k).get? j = (l.get? j).map (fun y => (k + j, y)) := by
  induction l with
  | nil => intro k j; simp [indexed]
  | cons x xs ih =>
    intro k j
    cases j with
    | zero => simp [indexed]
    | succ j =>
      simp only [indexed, List.get?_cons_succ, ih]
      cases xs.get? j <;> simp <;> omega

theorem mem_indexed {l : List α} :
    ∀ {k i : Nat} {y : α}, (i, y) ∈ indexed l k ↔ ∃ j, i = k + j ∧ l.get? j = some y := by
  induction l with
  | nil => intro k i y; simp [indexed]
  | cons x xs ih =>
    intro k i y
    simp only [indexed, List.mem_cons, ih]
    constructor
    · rintro (h | ⟨j, hj, hg⟩)
      · exact ⟨0, by simp at h; obtain ⟨h1, h2⟩ := h; simp [h1, h2]⟩
      · exact ⟨j + 1, by omega, by simpa using hg⟩
    · rintro ⟨j, hj, hg⟩
      cases j with
      | zero =>
        left
        simp at hg
        simp [hj, hg]
      | succ j =>
        right
        exact ⟨j, by omega, by simpa using hg⟩

theorem indexed_drop_cons {xs : List α} {n : Nat} {x : α} (h : xs.get? n = some x) :
    indexed (xs.drop n) n = (n, x) :: indexed (xs.drop (n + 1)) (n + 1) := by
  have hlt : n < xs.length := List.get?_eq_some.mp h |>.choose
  have hd : xs.drop n = x :: xs.drop (n + 1) := by
    have := List.drop_eq_getElem_cons hlt
    rwa [show xs[n] = x from by
      have := List.get?_eq_get hlt
      rw [this] at h
      exact Option.some.inj h] at this
  rw [hd]
  rfl

/-- Invariant of the collector: items written so far are exactly the prefix
of the expected output below `next`, and the buffer plus the not yet
arrived results are a permutation of the expected results from `next` on,
with nothing for `next` itself buffered. -/
def InvC (xs : List α) (st : CState α) (rem : List (Nat × α)) : Prop :=
  st.out = xs.take st.next ∧ st.next ≤ xs.length ∧
    (st.buf ++ rem).Perm (indexed (xs.drop st.next) st.next) ∧
    ∀ y, (st.next, y) ∉ st.buf

theorem flushF_inv (xs : List α) :
    ∀ (fuel : Nat) (buf : List (Nat × α)) (next : Nat) (out : List α)
      (rem : List (Nat × α)),
      buf.length ≤ fuel →
      out = xs.take next → next ≤ xs.length →
      (buf ++ rem).Perm (indexed (xs.drop next) next) →
      InvC xs ⟨(flushF fuel buf next).2.1, (flushF fuel buf next).2.2,
        out ++ (flushF fuel buf next).1⟩ rem := by
  intro fuel
  induction fuel with
  | zero =>
    intro buf next out rem hlen hout hle hperm
    have hbuf : buf = [] := List.length_eq_zero.mp (Nat.le_zero.mp hlen)
    subst hbuf
    simp only [flushF]
    exact ⟨by simpa using hout, hle, by simpa using hperm, by simp⟩
  | succ fuel ih =>
    intro buf next out rem hlen hout hle hperm
    cases he : extract next buf with
    | none =>
      simp only [flushF, he]
      exact ⟨by simpa using hout, hle, by simpa using hperm,
        fun y => extract_none_not_mem he y⟩
    | some q =>
      obtain ⟨y, buf2⟩ := q
      have hp := extract_some_perm he
      have hmem : (next, y) ∈ indexed (xs.drop next) next := by
        have hin : (next, y) ∈ buf ++ rem :=
          List.mem_append_left _ (hp.mem_iff.mpr (by simp))
        exact hperm.mem_iff.mp hin
      obtain ⟨j, hj, hget⟩ := mem_indexed.mp hmem
      have hj0 : j = 0 := by omega
      subst hj0
      have hget' : xs.get? next = some y := by
        rw [List.get?_drop] at hget
        simpa using hget
      have hlt : next < xs.length := (List.get?_eq_some.mp hget').choose
      have hcons := indexed_drop_cons hget'
      have hperm2 : (buf2 ++ rem).Perm (indexed (xs.drop (next + 1)) (next + 1)) := by
        have h1 : ((next, y) :: (buf2 ++ rem)).Perm (buf ++ rem) := by
          have h0 : (buf ++ rem).Perm (((next, y) :: buf2) ++ rem) := hp.append_right rem
          simpa using h0.symm
        have h2 : ((next, y) :: (buf2 ++ rem)).Perm
            ((next, y) :: indexed (xs.drop (next + 1)) (next + 1)) := by
          rw [← hcons]
          exact h1.trans hperm
        exact h2.cons_inv
      have hout2 : out ++ [y] = xs.take (next + 1) := by
        have hg2 : xs[next]? = some y := by
          rw [← List.get?_eq_getElem?]
          exact hget'
        rw [hout, List.take_succ, hg2]
        rfl
      have hlen2 : buf2.length ≤ fuel := by
        have hl := hp.length_eq
        simp at hl
        omega
      have hres := ih buf2 (next + 1) (out ++ [y]) rem hlen2 hout2 hlt hperm2
      simpa [flushF, he, List.append_assoc] using hres

theorem cstep_inv {xs : List α} {st : CState α} {p : Nat × α} {rem : List (Nat × α)}
    (h : InvC xs st (p :: rem)) : InvC xs (cstep st p) rem := by
  obtain ⟨hout, hle, hperm, _⟩ := h
  have hperm2 : ((p :: st.buf) ++ rem).Perm (indexed (xs.drop st.next) st.next) := by
    have h1 : ((p :: st.buf) ++ rem).Perm (st.buf ++ p :: rem) := by
      rw [List.cons_append]
      exact List.perm_middle.symm
    exact h1.trans hperm
  have hres := flushF_inv xs (p :: st.buf).length (p :: st.buf) st.next st.out rem
    (Nat.le_refl _) hout hle hperm2
  simpa [cstep] using hres

theorem foldl_cstep_inv {xs : List α} :
    ∀ (rem : List (Nat × α)) (st : CState α),
      InvC xs st rem → InvC xs (rem.foldl cstep st) [] := by
  intro rem
  induction rem with
  | nil => intro st h; exact h
  | cons p rem ih =>
    intro st h
    exact ih _ (cstep_inv h)

/-- Core ordering theorem for the collector: whatever order indexed results
arrive in, the flushed output is the expected list in index order, the
buffer ends empty and the write cursor ends at the length. -/
theorem collectLoop_perm {xs : List α} {arrival : List (Nat × α)}
    (h : arrival.Perm (indexed xs 0)) :
    (collectLoop arrival).out = xs ∧ (collectLoop arrival).buf = [] ∧
      (collectLoop arrival).next = xs.length := by
  have hinv : InvC xs ⟨[], 0, []⟩ arrival := by
    refine ⟨by simp, by simp, by simpa using h, by simp⟩
  have hfin : InvC xs (collectLoop arrival) [] := foldl_cstep_inv arrival _ hinv
  obtain ⟨hout, hle, hperm, hnm⟩ := hfin
  have hnext : (collectLoop arrival).next = xs.length := by
    by_contra hne
    have hlt : (collectLoop arrival).next < xs.length := Nat.lt_of_le_of_ne hle hne
    have hget : xs.get? (collectLoop arrival).next =
        some (xs.get ⟨(collectLoop arrival).next, hlt⟩) := List.get?_eq_get hlt
    have hcons := indexed_drop_cons hget
    have hmem : ((collectLoop arrival).next, xs.get ⟨(collectLoop arrival).next, hlt⟩) ∈
        (collectLoop arrival).buf ++ [] := by
      apply hperm.symm.mem_iff.mp
      rw [hcons]
      simp
    simp at hmem
    exact hnm _ hmem
  have hbuf : (collectLoop arrival).buf = [] := by
    have h2 := hperm
    rw [hnext] at h2
    simpa [indexed] using h2
  refine ⟨?_, hbuf, hnext⟩
  rw [hout, hnext, List.take_length]

/-! ### Spec-side formulations -/

/-- The field-filter rule exactly as §4.3 states it: exclude wins, then a
non-empty include list decides, otherwise everything is masked. -/
def shouldMaskSpec (key : String) (includeGlobs excludeGlobs : List (String → Bool)) : Bool :=
  if excludeGlobs.any (fun g => g key) then false
  else if !includeGlobs.isEmpty then includeGlobs.any (fun g => g key)
  else true

theorem anyMatch_eq_any (key : String) (gs : List (String → Bool)) :
    anyMatch key gs = gs.any (fun g => g key) := by
  induction gs with
  | nil => rfl
  | cons g gs ih =>
    by_cases h : g key <;> simp [anyMatch, h, ih]

/-- The ordered detector list of §4.1 step 4, as (predicate, generator)
pairs evaluated top to bottom. -/
def specDetectors (env : Env) : List ((String → Bool) × (String → Rng → Value × Rng)) :=
  [ (env.uuidParseOk, fun _ r => let g := env.uuidGen r; (.str g.1, g.2)),
    (fun s => env.ibanValidateOk (removeSpaces s),
      fun _ r => let g := env.ibanGen r; (.str g.1, g.2)),
    (ccDetect, fun _ r => let g := env.ccGen r; (.str g.1, g.2)),
    (env.phoneParseOk, fun _ r => let g := env.phoneGen r; (.str g.1, g.2)),
    (fun s => (currencySym s).isSome,
      fun s r => let g := env.priceGen r; (.str ((currencySym s).getD "" ++ " " ++ g.1), g.2)),
    (ulidMatch, fun _ r => let g := env.ulidGen r; (.str g.1, g.2)),
    (ksuidMatch, fun _ r => let g := genAlnum env 27 r; (.str (String.mk g.1), g.2)),
    (env.urlParseOk, fun _ r => let g := env.urlGen r; (.str g.1, g.2)),
    (emailMatch, fun _ r => let g := env.emailGen r; (.str g.1, g.2)),
    (env.macParseOk, fun _ r => let g := env.macGen r; (.str g.1, g.2)),
    (fun s => !(env.ipClass s = IpKind.none),
      fun s r =>
        if env.ipClass s = IpKind.v4 then let g := env.ipv4Gen r; (.str g.1, g.2)
        else let g := env.ipv6Gen r; (.str g.1, g.2)),
    (parseIntOk,
      fun s r => let g := numerifyL env (List.replicate s.data.length '#') r
        (.str (String.mk g.1), g.2)),
    (parseFloatOk,
      fun s r =>
        let parts := splitCh '.' s.data
        let ip := parts.headD []
        let fp := if 1 < parts.length then parts.getD 1 [] else []
        let template :=
          List.replicate ip.length '#' ++
            (if !fp.isEmpty then '.' :: List.replicate fp.length '#' else [])
        let g := numerifyL env template r
        (.str (String.mk g.1), g.2)),
    (fun s => (dateLayouts.find? (fun layout => env.timeParseOk layout s)).isSome,
      fun s r =>
        let g := env.dateGen ((dateLayouts.find? (fun layout => env.timeParseOk layout s)).getD "") r
        (.str g.1, g.2)),
    (numLikeMatch,
      fun s r => let g := numLikeSub env s.data r; (.str (String.mk g.1), g.2)),
    (env.dateAnyOk, fun _ r => let g := env.dateGen rfc3339Layout r; (.str g.1, g.2)) ]

/-- First-match-wins evaluation of an ordered detector list, falling back
to word-level substitution (§4.1 steps 4-5). -/
def applyRules (env : Env) (sk : SeederKind)
    (rules : List ((String → Bool) × (String → Rng → Value × Rng)))
    (s : String) (r : Rng) : Value × Rng :=
  match rules with
  | [] =>
    let g := maskWordsGo env sk ((splitCh ' ' s.data).map String.mk) r
    (.str (String.intercalate " " g.1), g.2)
  | rule :: rest => if rule.1 s then rule.2 s r else applyRules env sk rest s r

/-! ### Numerify and split lemmas -/

theorem numerifyL_append (env : Env) (l1 l2 : List Char) (r : Rng) :
    numerifyL env (l1 ++ l2) r =
      ((numerifyL env l1 r).1 ++ (numerifyL env l2 (numerifyL env l1 r).2).1,
        (numerifyL env l2 (numerifyL env l1 r).2).2) := by
  induction l1 generalizing r with
  | nil => simp [numerifyL]
  | cons c rest ih =>
    by_cases h : c = '#' <;> simp [numerifyL, h, ih]

theorem numerifyL_replicate_len (env : Env) (n : Nat) (r : Rng) :
    (numerifyL env (List.replicate n '#') r).1.length = n := by
  induction n generalizing r with
  | zero => simp [numerifyL]
  | succ n ih => simp [List.replicate_succ, numerifyL, ih]

theorem isDigitC_digitChar (n : Nat) : isDigitC (digitChar n) = true := by
  have h10 : n % 10 = 0 ∨ n % 10 = 1 ∨ n % 10 = 2 ∨ n % 10 = 3 ∨ n % 10 = 4 ∨
      n % 10 = 5 ∨ n % 10 = 6 ∨ n % 10 = 7 ∨ n % 10 = 8 ∨ n % 10 = 9 := by omega
  unfold digitChar
  rcases h10 with h | h | h | h | h | h | h | h | h | h <;> rw [h] <;> decide

theorem numerifyL_replicate_digits (env : Env) (n : Nat) (r : Rng) :
    ∀ c ∈ (numerifyL env (List.replicate n '#') r).1, isDigitC c = true := by
  induction n generalizing r with
  | zero => simp [numerifyL]
  | succ n ih =>
    simp only [List.replicate_succ, numerifyL, if_pos rfl]
    intro c hc
    rcases List.mem_cons.mp hc with h | h
    · subst h
      exact isDigitC_digitChar _
    · exact ih _ c h

theorem splitCh_no_sep {sep : Char} {l : List Char} (h : sep ∉ l) :
    splitCh sep l = [l] := by
  induction l with
  | nil => rfl
  | cons c rest ih =>
    have hc : c ≠ sep := fun he => h (he ▸ List.mem_cons_self c rest)
    have hr : sep ∉ rest := fun hm => h (List.mem_cons_of_mem c hm)
    simp [splitCh, hc, ih hr]

theorem splitCh_append_sep {sep : Char} {a : List Char} (b : List Char) (h : sep ∉ a) :
    splitCh sep (a ++ sep :: b) = a :: splitCh sep b := by
  induction a with
  | nil => simp [splitCh]
  | cons c rest ih =>
    have hc : c ≠ sep := fun he => h (he ▸ List.mem_cons_self c rest)
    have hr : sep ∉ rest := fun hm => h (List.mem_cons_of_mem c hm)
    simp [splitCh, hc, ih hr]

theorem splitCh_decomp {a b : List Char} (ha : '.' ∉ a) (hb : '.' ∉ b) :
    splitCh '.' (a ++ '.' :: b) = [a, b] := by
  rw [splitCh_append_sep b ha, splitCh_no_sep hb]

/-! ### Character facts -/

theorem char_eq_toNat {c d : Char} (h : c = d) : c.toNat = d.toNat := by rw [h]

theorem isDigitC_toNat {c : Char} (h : isDigitC c = true) :
    48 ≤ c.toNat ∧ c.toNat ≤ 57 := by
  simp only [isDigitC, Bool.and_eq_true, decide_eq_true_eq] at h
  exact h

theorem digit_not_space {c : Char} (h : isDigitC c = true) : isGoSpaceC c = false := by
  obtain ⟨h1, h2⟩ := isDigitC_toNat h
  simp only [isGoSpaceC, Bool.or_eq_false_iff, decide_eq_false_iff_not]
  refine ⟨⟨⟨⟨⟨⟨⟨?_, ?_⟩, ?_⟩, ?_⟩, ?_⟩, ?_⟩, ?_⟩, ?_⟩ <;>
    first
      | (intro he; subst he; exact absurd h (by decide))
      | (intro hn; omega)

/-! ### Cache invariant and determinism machinery -/

theorem maskUncached_det_fst (env : Env) (salt : List Nat) (r : Rng) (v : Value) :
    (maskUncached env (.deterministic salt) r v).1 = maskPure env salt v := by
  cases v <;> rfl

/-- A value the pipelines can actually hand to `mask`: decoded
`json.Number` strings contain a digit, and `nil` is never cached because
`mask` returns before the cache on `nil`. -/
def ValueWF : Value → Prop
  | .num s => ∃ c ∈ s.data, isDigitC c = true
  | .null => False
  | _ => True

/-- The cache invariant every reachable masker state satisfies: entries for
the deterministic method were produced by masking some well-formed value
with that cache key.  The random method has no cache to constrain. -/
def CacheOK (env : Env) (sk : SeederKind) (cache : List (String × Value)) : Prop :=
  match sk with
  | .random => True
  | .deterministic salt =>
    ∀ p ∈ cache, ∃ v : Value, ValueWF v ∧ getCacheKey v = p.1 ∧ p.2 = maskPure env salt v

theorem lookupA_mem {m : List (String × Value)} {k : String} {w : Value}
    (h : lookupA m k = some w) : (k, w) ∈ m := by
  unfold lookupA at h
  cases hf : m.find? (fun p => p.1 == k) with
  | none => rw [hf] at h; simp at h
  | some p =>
    rw [hf] at h
    simp at h
    have hm := List.mem_of_find?_eq_some hf
    have hk := List.find?_some hf
    simp at hk
    have : p = (k, w) := by
      cases p
      simp_all
    rwa [this] at hm

theorem maskPure_ws (env : Env) (salt : List Nat) {s : String}
    (h : trimSpaceIsEmpty s = true) : maskPure env salt (.str s) = .str s := by
  simp [maskPure, maskUncached, maskUncachedStr, h]

/-! ### CSV row lemmas -/

theorem csvFold_ge (header : List String) :
    ∀ (record : List String) (k : Nat), header.length ≤ k →
      ∀ m, (indexed record k).foldl
        (fun m p =>
          match header.get? p.1 with
          | some c => setAJ m c (.str p.2)
          | none => m) m = m := by
  intro record
  induction record with
  | nil => intro k _ m; rfl
  | cons r rest ih =>
    intro k hk m
    have hg : header.get? k = none := List.get?_eq_none.mpr hk
    simp only [indexed, List.foldl_cons, hg]
    exact ih (k + 1) (by omega) m

theorem csvFold_take (header : List String) :
    ∀ (record : List String) (k : Nat) (m : List (String × JValue)),
      (indexed record k).foldl
        (fun m p =>
          match header.get? p.1 with
          | some c => setAJ m c (.str p.2)
          | none => m) m =
      (indexed (record.take (header.length - k)) k).foldl
        (fun m p =>
          match header.get? p.1 with
          | some c => setAJ m c (.str p.2)
          | none => m) m := by
  intro record
  induction record with
  | nil => intro k m; simp [indexed]
  | cons r rest ih =>
    intro k m
    by_cases hk : k < header.length
    · have hsub : header.length - k = (header.length - (k + 1)) + 1 := by omega
      obtain ⟨c, hg⟩ : ∃ c, header.get? k = some c := by
        cases hg : header.get? k with
        | none => exact absurd (List.get?_eq_none.mp hg) (by omega)
        | some c => exact ⟨c, rfl⟩
      rw [hsub]
      simp only [List.take_succ_cons, indexed, List.foldl_cons, hg]
      exact ih (k + 1) _
    · have hz : header.length - k = 0 := by omega
      rw [hz]
      simp only [List.take_zero, indexed, List.foldl_nil]
      exact csvFold_ge header (r :: rest) k (by omega) m

theorem take_succ_set (acc : List String) (k : Nat) (a : String) (hk : k < acc.length) :
    (acc.set k a).take (k + 1) = acc.take k ++ [a] := by
  rw [List.set_eq_take_cons_drop a hk, List.take_append_eq_append_take]
  have hl : (acc.take k).length = k := List.length_take_of_le (by omega)
  rw [hl]
  have h1 : (acc.take k).take (k + 1) = acc.take k := by
    apply List.take_of_length_le
    omega
  have h2 : k + 1 - k = 1 := by omega
  rw [h1, h2]
  rfl

theorem take_succ_blank (acc : List String) (k : Nat) (hg : acc.get? k = some "") :
    acc.take (k + 1) = acc.take k ++ [""] := by
  rw [List.take_succ]
  rw [← List.get?_eq_getElem?, hg]
  rfl

theorem csvAssemble_aux (m : List (String × JValue)) :
    ∀ (hd : List String) (k : Nat) (acc : List String),
      acc.length = k + hd.length →
      (∀ i, k ≤ i → i < acc.length → acc.get? i = some "") →
      (indexed hd k).foldl
        (fun rec p =>
          match lookupAJ m p.2 with
          | some v => rec.set p.1 (fmtV v)
          | none => rec) acc =
      acc.take k ++
        hd.map (fun col =>
          match lookupAJ m col with
          | some v => fmtV v
          | none => "") := by
  intro hd
  induction hd with
  | nil =>
    intro k acc hlen hblank
    simp only [indexed, List.foldl_nil, List.map_nil, List.append_nil]
    exact (List.take_of_length_le (by simpa using Nat.le_of_eq hlen)).symm
  | cons col rest ih =>
    intro k acc hlen hblank
    have hk : k < acc.length := by simp at hlen; omega
    simp only [indexed, List.foldl_cons, List.map_cons]
    cases hl : lookupAJ m col with
    | some v =>
      have hlen2 : (acc.set k (fmtV v)).length = (k + 1) + rest.length := by
        simp at hlen ⊢
        omega
      have hblank2 : ∀ i, k + 1 ≤ i → i < (acc.set k (fmtV v)).length →
          (acc.set k (fmtV v)).get? i = some "" := by
        intro i hi hlt
        rw [List.get?_set_ne _ _ (by omega : k ≠ i)]
        exact hblank i (by omega) (by simpa using hlt)
      rw [ih (k + 1) _ hlen2 hblank2, take_succ_set acc k _ hk]
      simp
    | none =>
      have hlen2 : acc.length = (k + 1) + rest.length := by
        simp at hlen ⊢
        omega
      rw [ih (k + 1) acc hlen2 (fun i hi hlt => hblank i (by omega) hlt),
        take_succ_blank acc k (hblank k (Nat.le_refl k) hk)]
      simp

/-! ### Helper results shared by the claim theorems -/

/-- Output of `mask` under the deterministic method is the pure per-value
mask whenever no cache entry under this value's key disagrees with it
(`lookupA` can only return an entry written for some value sharing the
key). -/
theorem mask_det_eq_pure (env : Env) (salt : List Nat) (st : MState) (v : Value)
    (hv : v ≠ .null)
    (h : ∀ p ∈ st.cache, p.1 = getCacheKey v → p.2 = maskPure env salt v) :
    (mask env (.deterministic salt) st v).1 = maskPure env salt v := by
  cases v with
  | null => exact absurd rfl hv
  | str s =>
    cases hl : lookupA st.cache (getCacheKey (.str s)) with
    | none => simp [mask, hl, maskUncached_det_fst]
    | some w =>
      have hw := h _ (lookupA_mem hl) rfl
      simp only [mask, hl]
      exact hw
  | num s =>
    cases hl : lookupA st.cache (getCacheKey (.num s)) with
    | none => simp [mask, hl, maskUncached_det_fst]
    | some w =>
      have hw := h _ (lookupA_mem hl) rfl
      simp only [mask, hl]
      exact hw
  | bool b =>
    cases hl : lookupA st.cache (getCacheKey (.bool b)) with
    | none => simp [mask, hl, maskUncached_det_fst]
    | some w =>
      have hw := h _ (lookupA_mem hl) rfl
      simp only [mask, hl]
      exact hw

/-- The string held by a masked string value. -/
def strOf : Value → String
  | .str t => t
  | _ => ""

/-- A string falls through every detector before the integer/decimal ones
(§4.1, detectors 1-11 all reject). -/
def reachesNumeric (env : Env) (s : String) : Bool :=
  !env.uuidParseOk s && !env.ibanValidateOk (removeSpaces s) && !ccDetect s &&
    !env.phoneParseOk s && !(currencySym s).isSome && !ulidMatch s && !ksuidMatch s &&
    !env.urlParseOk s && !emailMatch s && !env.macParseOk s &&
    (env.ipClass s = IpKind.none)

/-- A document root is a bare scalar (not an array, object, or null). -/
def scalarRoot : JValue → Bool
  | .str _ => true
  | .num _ => true
  | .jbool _ => true
  | _ => false

/-! ### Claim C3 -/

/-- C3: `shouldMask` evaluates the field filter with exactly the claimed
precedence: a matching exclude glob forces `false`; otherwise a non-empty
include list yields `true` iff some include glob matches; otherwise
`true`. -/
theorem claim_C3 (key : String) (includeGlobs excludeGlobs : List (String → Bool)) :
    shouldMask key includeGlobs excludeGlobs = shouldMaskSpec key includeGlobs excludeGlobs := by
  cases excludeGlobs with
  | nil => cases includeGlobs <;> simp [shouldMask, shouldMaskSpec, anyMatch_eq_any]
  | cons g gs =>
    cases includeGlobs <;>
      by_cases h : (g :: gs).any (fun g => g key) <;>
        simp [shouldMask, shouldMaskSpec, anyMatch_eq_any, h]

/-! ### Claim C4 -/

/-- C4: for every non-empty, non-whitespace string the masker applies the
format detectors in exactly the order UUID, IBAN, credit card (shape plus
Luhn), phone, currency amount, ULID, KSUID, URL, email, MAC, IP, integer,
decimal, the fixed date layouts, digits-with-separators, free-form date,
with word-level substitution as final fallback: the transcribed chain
`maskUncachedStr` coincides with first-match-wins evaluation of that
ordered rule list. -/
theorem claim_C4 (env : Env) (sk : SeederKind) (s : String) (r : Rng)
    (h : trimSpaceIsEmpty s = false) :
    maskUncachedStr env sk s r = applyRules env sk (specDetectors env) s r := by
  cases hip : env.ipClass s <;>
    simp [maskUncachedStr, applyRules, specDetectors, h, hip]

theorem claim_C4_witness :
    maskUncachedStr refEnv (.deterministic [1]) "hello" ⟨1, 0⟩ =
      applyRules refEnv (.deterministic [1]) (specDetectors refEnv) "hello" ⟨1, 0⟩ :=
  claim_C4 refEnv (.deterministic [1]) "hello" ⟨1, 0⟩ (by decide)

/-! ### Claim C9 -/

/-- C9 counterexample: the JSON document `5` is well-formed with a scalar
root, but `Process` routes it to the object fallback, whose decode into
`map[string]any` fails: the call returns an error instead of masked
output. -/
theorem claim_C9_counterexample :
    (jsonProcessRoot refEnv (.deterministic [1]) [] [] (.num "5") []).err =
      some "error decoding root JSON object" := rfl

/-- C9 amended: documents whose first non-whitespace byte is not `[` are
decoded as a single root object, so the call succeeds exactly when the
root is an array, an object, or `null` (which decodes to a nil map); bare
string/number/boolean roots return a decode error. -/
theorem claim_C9_amended (env : Env) (sk : SeederKind) (inc exc : List (String → Bool))
    (doc : JValue) (arrival : List (Nat × JValue)) :
    (jsonProcessRoot env sk inc exc doc arrival).err = none ↔ scalarRoot doc = false := by
  cases doc <;> simp [jsonProcessRoot, jsonProcessArray, runnerRun, scalarRoot]

/-! ### Claim C10 -/

/-- C10: every emitted CSV data row has exactly as many fields as the
header: the chunk reader drops record fields beyond the header length when
building the column map, and the assembler emits one field per header
column in header order, an empty string when the masked row map lacks the
column. -/
theorem claim_C10 (header record : List String) (m : List (String × JValue)) :
    csvRowToMap header record = csvRowToMap header (record.take header.length) ∧
      (csvAssembleRecord header m).length = header.length ∧
      csvAssembleRecord header m =
        header.map (fun col =>
          match lookupAJ m col with
          | some v => fmtV v
          | none => "") := by
  have h3 : csvAssembleRecord header m =
      header.map (fun col =>
        match lookupAJ m col with
        | some v => fmtV v
        | none => "") := by
    have h := csvAssemble_aux m header 0 (List.replicate header.length "")
      (by simp) ?_
    · simpa [csvAssembleRecord] using h
    · intro i _ hlt
      rw [List.get?_eq_getElem?]
      simp at hlt
      simp [List.getElem?_replicate, hlt]
  refine ⟨?_, ?_, h3⟩
  · have h := csvFold_take header record 0 []
    simpa [csvRowToMap] using h
  · rw [h3, List.length_map]

/-! ### Claim C1 -/

/-- C1 counterexample: the deterministic cache is keyed by the canonical
string form, which collides across runtime types.  A worker that masks the
string `"true"` and then the boolean `true` gets the cached string back for
the boolean, while a worker that masks the boolean directly produces a
boolean: two `mask` calls on the same scalar value return different
outputs depending on call history. -/
theorem claim_C1_counterexample :
    (mask refEnv (.deterministic [1])
        ((mask refEnv (.deterministic [1]) initMState (.str "true")).2) (.bool true)).1 ≠
      (mask refEnv (.deterministic [1]) initMState (.bool true)).1 := by decide

/-- C1 amended: under the deterministic method with a fixed salt, `mask` on
a scalar value returns the pure function of salt and value (seeded by the
keyed hash of the truncated canonical form) independently of the worker
instance and of call order, provided no cache entry written for a value of
a different runtime type with the same canonical string form (boolean
`true` versus the string `"true"`, the number `123` versus the string
`"123"`) sits under this value's key. -/
theorem claim_C1_amended (env : Env) (salt : List Nat) (v : Value) (st1 st2 : MState)
    (h1 : ∀ p ∈ st1.cache, p.1 = getCacheKey v → p.2 = maskPure env salt v)
    (h2 : ∀ p ∈ st2.cache, p.1 = getCacheKey v → p.2 = maskPure env salt v) :
    (mask env (.deterministic salt) st1 v).1 = (mask env (.deterministic salt) st2 v).1 := by
  by_cases hv : v = .null
  · subst hv; rfl
  · rw [mask_det_eq_pure env salt st1 v hv h1, mask_det_eq_pure env salt st2 v hv h2]

theorem claim_C1_witness :
    (mask refEnv (.deterministic [1])
        ((mask refEnv (.deterministic [1]) initMState (.str "y")).2) (.str "x")).1 =
      (mask refEnv (.deterministic [1]) initMState (.str "x")).1 :=
  claim_C1_amended refEnv [1] (.str "x") _ _ (by decide) (by decide)

/-! ### Claim C8 -/

/-- C8: `mask` is the identity on null and on empty or whitespace-only
strings, under both seeding strategies, for every reachable masker state
(cache entries produced by previous well-formed mask calls). -/
theorem claim_C8 (env : Env) (sk : SeederKind) (st : MState)
    (hc : CacheOK env sk st.cache) (s : String) (hs : trimSpaceIsEmpty s = true) :
    (mask env sk st .null).1 = .null ∧ (mask env sk st (.str s)).1 = .str s := by
  refine ⟨rfl, ?_⟩
  cases sk with
  | random => simp [mask, maskUncached, seedFaker, maskUncachedStr, hs]
  | deterministic salt =>
    cases hl : lookupA st.cache (getCacheKey (.str s)) with
    | none =>
      simp [mask, hl, maskUncached_det_fst, maskPure_ws env salt hs]
    | some w =>
      obtain ⟨v, hwf, hkey, hval⟩ := hc _ (lookupA_mem hl)
      simp only [mask, hl]
      cases v with
      | str s2 =>
        have hs2 : s2 = s := hkey
        subst hs2
        rw [show ((getCacheKey (Value.str s2), w).2 : Value) = w from rfl] at hval
        rw [hval, maskPure_ws env salt hs]
      | num s2 =>
        exfalso
        have hs2 : s2 = s := hkey
        subst hs2
        obtain ⟨c, hcm, hcd⟩ := hwf
        have hsp : isGoSpaceC c = true := by
          have := List.all_eq_true.mp hs
          simpa using this c hcm
        rw [digit_not_space hcd] at hsp
        exact Bool.false_ne_true hsp
      | bool b =>
        exfalso
        cases b with
        | true =>
          have : getCacheKey (Value.bool true) = s := hkey
          simp [getCacheKey] at this
          rw [← this] at hs
          exact absurd hs (by decide)
        | false =>
          have : getCacheKey (Value.bool false) = s := hkey
          simp [getCacheKey] at this
          rw [← this] at hs
          exact absurd hs (by decide)
      | null => exact absurd hwf (by simp [ValueWF])

theorem claim_C8_witness :
    (mask refEnv .random initMState (.str "   ")).1 = .str "   " ∧
      (mask refEnv (.deterministic [1]) initMState (.str "   ")).1 = .str "   " ∧
      (mask refEnv (.deterministic [1]) initMState .null).1 = .null :=
  ⟨(claim_C8 refEnv .random initMState trivial "   " (by decide)).2,
    (claim_C8 refEnv (.deterministic [1]) initMState
      (fun p hp => absurd hp (List.not_mem_nil p)) "   " (by decide)).2,
    (claim_C8 refEnv (.deterministic [1]) initMState
      (fun p hp => absurd hp (List.not_mem_nil p)) "" (by decide)).1⟩

/-! ### Claim C2 -/

/-- C2 counterexample: the text processor carries no index and writes
results in completion order; with two workers the completion order `[1, 0]`
is realizable and produces the two masked lines swapped, so the i-th
emitted text line is not the masked form of the i-th input line. -/
theorem claim_C2_counterexample :
    [1, 0].Perm (List.range 2) ∧
      textOutput refEnv [1] ["a", "b"] [1, 0] ≠
        ["a", "b"].map (maskStrPure refEnv [1]) := by
  constructor
  · rw [show List.range 2 = [0, 1] from rfl]
    exact List.Perm.swap 0 1 []
  · decide

/-- C2 amended: for the formats that go through the index-based concurrent
runner (JSON array elements, XML children, CSV rows), the final output
order exactly matches input order: whatever permutation of the indexed
masked chunks arrives on the results channel, the collector emits exactly
the masked chunks in dispatch order, then writes the closing framing and
returns no error.  (The text processor does not use the runner and its line
order is not guaranteed; see the counterexample.) -/
theorem claim_C2_amended (env : Env) (sk : SeederKind) (inc exc : List (String → Bool))
    (root : String) (src : List JValue) (arrival : List (Nat × JValue))
    (h : arrival.Perm (indexed (src.map (maskChunk env sk inc exc root)) 0)) :
    (runnerRun arrival none).items = src.map (maskChunk env sk inc exc root) ∧
      (runnerRun arrival none).wroteEnd = true ∧
      (runnerRun arrival none).err = none := by
  have hc := collectLoop_perm h
  exact ⟨by simp [runnerRun, hc.1], rfl, rfl⟩

theorem claim_C2_witness :
    (runnerRun
        (indexed ([JValue.str "a", JValue.str "b"].map
          (maskChunk refEnv (.deterministic [1]) [] [] "")) 0) none).items =
      [JValue.str "a", JValue.str "b"].map (maskChunk refEnv (.deterministic [1]) [] [] "") :=
  (claim_C2_amended refEnv (.deterministic [1]) [] [] "" [JValue.str "a", JValue.str "b"]
    _ (List.Perm.refl _)).1

/-! ### Claim C6 -/

/-- C6: when the chunk reader fails mid-stream, every chunk dispatched
before the error is still processed and flushed in index order (whatever
order workers complete in), `WriteEnd` is skipped, and the recorded
dispatch error is returned as the single terminal result after the
channels drain. -/
theorem claim_C6 (env : Env) (sk : SeederKind) (inc exc : List (String → Bool))
    (root : String) (src : List JValue) (e : String) (arrival : List (Nat × JValue))
    (h : arrival.Perm (indexed (src.map (maskChunk env sk inc exc root)) 0)) :
    (runnerRun arrival (some e)).items = src.map (maskChunk env sk inc exc root) ∧
      (runnerRun arrival (some e)).err = some e ∧
      (runnerRun arrival (some e)).wroteEnd = false := by
  have hc := collectLoop_perm h
  exact ⟨by simp [runnerRun, hc.1], rfl, rfl⟩

theorem claim_C6_witness :
    (runnerRun
        (indexed ([JValue.str "a"].map (maskChunk refEnv (.deterministic [1]) [] [] "")) 0)
        (some "unexpected EOF")).items =
      [JValue.str "a"].map (maskChunk refEnv (.deterministic [1]) [] [] "") ∧
      (runnerRun
        (indexed ([JValue.str "a"].map (maskChunk refEnv (.deterministic [1]) [] [] "")) 0)
        (some "unexpected EOF")).err = some "unexpected EOF" :=
  ⟨(claim_C6 refEnv (.deterministic [1]) [] [] "" [JValue.str "a"] "unexpected EOF"
      _ (List.Perm.refl _)).1,
    (claim_C6 refEnv (.deterministic [1]) [] [] "" [JValue.str "a"] "unexpected EOF"
      _ (List.Perm.refl _)).2.1⟩

/-! ### Claim C7 -/

/-- C7: with a positive first-N cap on a root JSON array, exactly the
first `firstN` elements are masked and emitted, and the closing framing
(`]` plus newline) is still written because the capped chunk reader
reports end-of-input rather than an error, so `WriteEnd` runs. -/
theorem claim_C7 (env : Env) (sk : SeederKind) (inc exc : List (String → Bool))
    (elems : List JValue) (firstN : Nat) (arrival : List (Nat × JValue))
    (h1 : 0 < firstN) (h2 : firstN ≤ elems.length)
    (h : arrival.Perm
      (indexed ((jsonChunks firstN elems).map (maskChunk env sk inc exc "")) 0)) :
    jsonProcessArray arrival =
      { text := "[" ++
          jsonItemsRender ((elems.take firstN).map (maskChunk env sk inc exc "")) ++ "]\n",
        err := none } ∧
      ((elems.take firstN).map (maskChunk env sk inc exc "")).length = firstN := by
  have hch : jsonChunks firstN elems = elems.take firstN := by
    simp [jsonChunks, h1]
  rw [hch] at h
  have hc := collectLoop_perm h
  constructor
  · simp [jsonProcessArray, runnerRun, jsonArrayOut, hc.1]
  · rw [List.length_map, List.length_take]
    omega

theorem claim_C7_witness :
    jsonProcessArray
        (indexed (([JValue.str "a", JValue.str "b", JValue.str "c", JValue.str "d"].take 2).map
          (maskChunk refEnv (.deterministic [1]) [] [] "")) 0) =
      { text := "[" ++
          jsonItemsRender
            (([JValue.str "a", JValue.str "b", JValue.str "c", JValue.str "d"].take 2).map
              (maskChunk refEnv (.deterministic [1]) [] [] "")) ++ "]\n",
        err := none } :=
  (claim_C7 refEnv (.deterministic [1]) [] []
    [JValue.str "a", JValue.str "b", JValue.str "c", JValue.str "d"] 2 _
    (by decide) (by decide) (by exact List.Perm.refl _)).1

/-! ### Claim C5 -/

/-- The string held by a masked `json.Number` value. -/
def numOf : Value → String
  | .num t => t
  | _ => ""

theorem maskUncachedStr_int (env : Env) (sk : SeederKind) (s : String) (r : Rng)
    (hr : reachesNumeric env s = true) (ht : trimSpaceIsEmpty s = false)
    (hint : parseIntOk s = true) :
    maskUncachedStr env sk s r =
      (.str (String.mk (numerifyL env (List.replicate s.data.length '#') r).1),
        (numerifyL env (List.replicate s.data.length '#') r).2) := by
  simp only [reachesNumeric, Bool.and_eq_true, Bool.not_eq_true', decide_eq_true_eq] at hr
  obtain ⟨⟨⟨⟨⟨⟨⟨⟨⟨⟨h1, h2⟩, h3⟩, h4⟩, h5⟩, h6⟩, h7⟩, h8⟩, h9⟩, h10⟩, h11⟩ := hr
  simp [maskUncachedStr, ht, h1, h2, h3, h4, h5, h6, h7, h8, h9, h10, h11, hint]

theorem maskUncachedStr_float (env : Env) (sk : SeederKind) (s : String) (r : Rng)
    (hr : reachesNumeric env s = true) (ht : trimSpaceIsEmpty s = false)
    (hint : parseIntOk s = false) (hf : parseFloatOk s = true) :
    maskUncachedStr env sk s r =
      (let parts := splitCh '.' s.data
       let ip := parts.headD []
       let fp := if 1 < parts.length then parts.getD 1 [] else []
       let template :=
         List.replicate ip.length '#' ++
           (if !fp.isEmpty then '.' :: List.replicate fp.length '#' else [])
       (.str (String.mk (numerifyL env template r).1), (numerifyL env template r).2)) := by
  simp only [reachesNumeric, Bool.and_eq_true, Bool.not_eq_true', decide_eq_true_eq] at hr
  obtain ⟨⟨⟨⟨⟨⟨⟨⟨⟨⟨h1, h2⟩, h3⟩, h4⟩, h5⟩, h6⟩, h7⟩, h8⟩, h9⟩, h10⟩, h11⟩ := hr
  simp [maskUncachedStr, ht, h1, h2, h3, h4, h5, h6, h7, h8, h9, h10, h11, hint, hf]

theorem numerifyL_dot_replicate (env : Env) (a b : Nat) (r : Rng) :
    ∃ A B : List Char,
      (numerifyL env (List.replicate a '#' ++ '.' :: List.replicate b '#') r).1 =
          A ++ '.' :: B ∧
        A.length = a ∧ B.length = b ∧
        (∀ c ∈ A, isDigitC c = true) ∧ (∀ c ∈ B, isDigitC c = true) := by
  rw [numerifyL_append]
  refine ⟨(numerifyL env (List.replicate a '#') r).1,
    (numerifyL env (List.replicate b '#') ((numerifyL env (List.replicate a '#') r).2)).1,
    by simp [numerifyL], numerifyL_replicate_len env a r, numerifyL_replicate_len env b _,
    numerifyL_replicate_digits env a r, numerifyL_replicate_digits env b _⟩

/-- C5 counterexample: `"5."` parses as a decimal number (Go
`strconv.ParseFloat` accepts a trailing dot), but its mask is the single
digit produced from the empty-fraction template: the output length is 1,
not the input length 2, and the decimal point is gone. -/
theorem claim_C5_counterexample :
    parseFloatOk "5." = true ∧
      (strOf (mask refEnv (.deterministic [1]) initMState (.str "5.")).1).data.length = 1 ∧
      "5.".data.length = 2 := by decide

/-- C5 amended: for strings that reach the numeric detectors (none of the
eleven earlier detectors match): an integer-parsing string masks to a
digit string of the same length; a decimal with a nonempty fractional part
masks to digits with the decimal point at the same position and the same
length; a decimal with an empty fractional part (`"5."`) masks to just the
integer-part digits, dropping the dot; a dot-free decimal (exponent or
special form) keeps its length.  A `json.Number` with a single dot keeps
both parts' character counts; a dot-free one keeps its length (signs are
replaced by digits, so character counts rather than digit counts are
preserved). -/
theorem claim_C5_amended (env : Env) (sk : SeederKind) (s : String) (r : Rng)
    (hr : reachesNumeric env s = true) (ht : trimSpaceIsEmpty s = false) :
    ((parseIntOk s = true →
        (strOf (maskUncachedStr env sk s r).1).data.length = s.data.length ∧
          ∀ c ∈ (strOf (maskUncachedStr env sk s r).1).data, isDigitC c = true) ∧
      (parseIntOk s = false → parseFloatOk s = true →
        ∀ a b : List Char, s.data = a ++ '.' :: b → '.' ∉ a → '.' ∉ b →
          (b ≠ [] →
            ∃ A B : List Char,
              (strOf (maskUncachedStr env sk s r).1).data = A ++ '.' :: B ∧
                A.length = a.length ∧ B.length = b.length ∧
                (∀ c ∈ A, isDigitC c = true) ∧ ∀ c ∈ B, isDigitC c = true) ∧
          (b = [] →
            (strOf (maskUncachedStr env sk s r).1).data.length = a.length)) ∧
      (parseIntOk s = false → parseFloatOk s = true → '.' ∉ s.data →
        (strOf (maskUncachedStr env sk s r).1).data.length = s.data.length)) ∧
    (∀ ns : String,
      (∀ a b : List Char, ns.data = a ++ '.' :: b → '.' ∉ a → '.' ∉ b →
        ∃ A B : List Char,
          (numOf (maskUncached env sk r (.num ns)).1).data = A ++ '.' :: B ∧
            A.length = a.length ∧ B.length = b.length) ∧
      ('.' ∉ ns.data →
        (numOf (maskUncached env sk r (.num ns)).1).data.length = ns.data.length)) := by
  refine ⟨⟨?_, ?_, ?_⟩, ?_⟩
  · intro hint
    rw [maskUncachedStr_int env sk s r hr ht hint]
    exact ⟨numerifyL_replicate_len env _ r, numerifyL_replicate_digits env _ r⟩
  · intro hint hf a b hs hna hnb
    rw [maskUncachedStr_float env sk s r hr ht hint hf]
    have hparts : splitCh '.' s.data = [a, b] := by
      rw [hs]
      exact splitCh_decomp hna hnb
    constructor
    · intro hb
      have hbe : b.isEmpty = false := by
        cases b with
        | nil => exact absurd rfl hb
        | cons c cs => rfl
      simp only [hparts, strOf]
      simp [hbe]
      exact numerifyL_dot_replicate env a.length b.length r
    · intro hb
      subst hb
      simp only [hparts, strOf]
      simp [numerifyL_replicate_len]
  · intro hint hf hnd
    rw [maskUncachedStr_float env sk s r hr ht hint hf]
    have hparts : splitCh '.' s.data = [s.data] := splitCh_no_sep hnd
    simp only [hparts, strOf]
    simp [numerifyL_replicate_len]
  · intro ns
    constructor
    · intro a b hs hna hnb
      have hcont : ns.data.contains '.' = true := by
        rw [hs]
        simp [List.contains_eq_any_beq]
      have hparts : splitCh '.' ns.data = [a, b] := by
        rw [hs]
        exact splitCh_decomp hna hnb
      simp only [maskUncached, maskNum, hcont, hparts, numOf]
      simp
      obtain ⟨A, B, hAB, hA, hB, _, _⟩ :=
        numerifyL_dot_replicate env a.length b.length
          (seedFaker env sk (Value.num ns) r)
      exact ⟨A, B, hAB, hA, hB⟩
    · intro hnd
      have hcont : ns.data.contains '.' = false := by
        simpa using hnd
      simp only [maskUncached, maskNum, hcont, numOf]
      simp [numerifyL_replicate_len]

theorem claim_C5_witness :
    reachesNumeric refEnv "12.5" = true ∧ trimSpaceIsEmpty "12.5" = false ∧
      (parseIntOk "12.5" = false → parseFloatOk "12.5" = true →
        ∀ a b : List Char, "12.5".data = a ++ '.' :: b → '.' ∉ a → '.' ∉ b →
          (b ≠ [] →
            ∃ A B : List Char,
              (strOf (maskUncachedStr refEnv (.deterministic [1]) "12.5" ⟨1, 0⟩).1).data =
                  A ++ '.' :: B ∧
                A.length = a.length ∧ B.length = b.length ∧
                (∀ c ∈ A, isDigitC c = true) ∧ ∀ c ∈ B, isDigitC c = true) ∧
          (b = [] →
            (strOf (maskUncachedStr refEnv (.deterministic [1]) "12.5" ⟨1, 0⟩).1).data.length =
              a.length)) :=
  ⟨by decide, by decide,
    (claim_C5_amended refEnv (.deterministic [1]) "12.5" ⟨1, 0⟩ (by decide) (by decide)).1.2.1⟩

end Unaware
